import Mathlib

/-!
A verification development for the mirror curation pipeline of
`reflector-rs` (crates `arch-reflector` and `arch-mirrors-rs`): a shallow
embedding of its data model, filtering, sorting, cache gate, rate
benchmarking collection and concurrency limiter, with theorems settling
the specified behaviours.

Modelling conventions:
* `f32`/`f64` values are modelled as rationals `ℚ` (exact arithmetic; the
  properties below do not depend on rounding).  The non-finite IEEE values
  that the rate division can produce are modelled explicitly by `FVal`.
* Timestamps (`SystemTime`, `chrono::DateTime<Utc>`, `jiff::Timestamp`)
  are modelled as integers counting whole seconds, so `Duration::as_secs`
  is the identity on elapsed times.
* `reqwest::Url` is modelled as `String`, and `HashMap<Url, f64>` as a
  function `String → Option _`.
* Rust's `Vec::sort_by` / `sort_by_key` are stable sorts; a stable sort
  under a total preorder comparator `c` has a unique result, so they are
  embedded as `List.insertionSort` (also stable) over the relation
  `fun a b => c a b ≠ .gt`.
-/

namespace Reflector

/-- `arch_mirrors_rs::Protocol` (src/crates/arch-mirrors-rs/src/protocol.rs). -/
inductive Protocol
  | Http
  | Https
  | Rsync
deriving DecidableEq

/-- `arch_mirrors_rs::Mirror` (src/crates/arch-mirrors-rs/src/mirror.rs).
`url::Url` is modelled as `String`, `chrono::DateTime<Utc>` as seconds
(`ℤ`), `f64` fields as `ℚ`, and the `u32` delay as `ℕ`. -/
structure Mirror where
  url : String
  protocol : Protocol
  last_sync : Option ℤ
  completion_pct : Option ℚ
  delay : Option ℕ
  duration_average : Option ℚ
  duration_stddev : Option ℚ
  score : Option ℚ
  active : Bool
  country : String
  country_code : String
  isos : Bool
  ipv4 : Bool
  ipv6 : Bool
  details : String
deriving DecidableEq

/-- `arch_mirrors_rs::Status` (src/crates/arch-mirrors-rs/src/status.rs). -/
structure Status where
  cutoff : ℕ
  last_check : ℤ
  num_checks : ℕ
  check_frequency : ℕ
  urls : List Mirror
  version : ℕ
deriving DecidableEq

/-- The fields of `arch-reflector`'s `Filters` CLI struct that are read by
`filter_status` (src/crates/arch-reflector/src/main.rs, `struct Filters`);
the remaining fields (`fastest`, `include`, `exclude`, `latest`, `score`,
`number`) are not consulted there.  `age` and `delay` are `Option<f32>`
hour values; `completion_percent` is a `u8` that clap restricts to
`0..=100`. -/
structure Filters where
  age : Option ℚ
  delay : Option ℚ
  country : List String
  protocol : List Protocol
  completion_percent : ℕ
  isos : Bool
  ipv4 : Bool
  ipv6 : Bool
deriving DecidableEq

/-- Rust float-to-signed-integer `as` cast: truncation toward zero.  (The
saturation at the integer type's bounds only matters for astronomically
large inputs, which `tryHours` below rejects anyway.) -/
def ratTrunc (a : ℚ) : ℤ := a.num.tdiv a.den

/-- `(x) as u32` on a nonnegative-or-small float: negative values clamp to
`0`, values beyond `u32::MAX` saturate, otherwise truncation toward zero. -/
def castU32 (a : ℚ) : ℕ := if a ≤ 0 then 0 else min (ratTrunc a).toNat (2 ^ 32 - 1)

/-- `jiff::Span::new().try_hours(h)`: succeeds exactly when `h` lies in
jiff's span range for hours (±175_307_616), producing a span of `h`
hours. -/
def tryHours (h : ℤ) : Option ℤ := if h.natAbs ≤ 175307616 then some h else none

/-- The `max_age` computation of `filter_status` (main.rs:449–451):
`filters.age.and_then(|age| Span::new().try_hours(age as i64).ok())`. -/
def maxAge (filters : Filters) : Option ℤ :=
  filters.age.bind (fun age => tryHours (ratTrunc age))

/-- `f64::from(filters.completion_percent) / 100.0` (main.rs:448). -/
def minCompletionPct (filters : Filters) : ℚ := (filters.completion_percent : ℚ) / 100

/-- The closure passed to `status.urls.retain(...)` in `filter_status`
(main.rs:452–516), with each `return false` early exit rendered as a
boolean conjunct in source order.  `now` is `Timestamp::now()`;  a span of
`max_age` hours added to a timestamp advances it by `3600 * max_age`
seconds, and the `matches!(max_age.compare(Span::new()), Ok(Greater))`
guard is `0 < max_age`. -/
def keepMirror (filters : Filters) (now : ℤ) (mirror : Mirror) : Bool :=
  match mirror.last_sync with
  | none => false
  | some last_sync =>
    (match maxAge filters with
     | some max_age =>
       !(decide (0 < max_age) && decide (last_sync + 3600 * max_age < now))
     | none => true)
    && (match mirror.completion_pct with
        | some completion_pct => !decide (completion_pct < minCompletionPct filters)
        | none => true)
    && (filters.country.isEmpty || filters.country.contains mirror.country
        || filters.country.contains mirror.country_code)
    && (filters.protocol.isEmpty || filters.protocol.contains mirror.protocol)
    && (match filters.delay with
        | some delay =>
          match mirror.delay with
          | some mirror_delay => !decide (castU32 (delay * 3600) < mirror_delay)
          | none => false
        | none => true)
    && (!filters.isos || mirror.isos)
    && (!filters.ipv4 || mirror.ipv4)
    && (!filters.ipv6 || mirror.ipv6)

/-- `filter_status` (main.rs:446–517).  `Vec::retain` keeps, in their
original order, exactly the elements satisfying the predicate, i.e. it is
`List.filter`. -/
def filter_status (filters : Filters) (now : ℤ) (status : Status) : Status :=
  { status with urls := status.urls.filter (keepMirror filters now) }

/-- A mirror record with every optional field absent, used to build
concrete witnesses. -/
def mkMirror (url : String) : Mirror where
  url := url
  protocol := .Http
  last_sync := none
  completion_pct := none
  delay := none
  duration_average := none
  duration_stddev := none
  score := none
  active := true
  country := ""
  country_code := ""
  isos := false
  ipv4 := false
  ipv6 := false
  details := ""

/-- The filter configuration produced by running the binary with no filter
options (clap defaults: `completion_percent = 100`, everything else off). -/
def emptyFilters : Filters where
  age := none
  delay := none
  country := []
  protocol := []
  completion_percent := 100
  isos := false
  ipv4 := false
  ipv6 := false

/-- A one-mirror snapshot for witnesses. -/
def exampleStatus : Status where
  cutoff := 86400
  last_check := 0
  num_checks := 0
  check_frequency := 0
  urls := [mkMirror "https://a.example/"]
  version := 3

/-- C5: for every filter configuration (the empty one included), every
mirror whose `last_sync` is absent is removed by `filter_status`; no
combination of predicates retains it. -/
theorem unsynced_mirror_always_rejected (filters : Filters) (now : ℤ) (status : Status)
    (m : Mirror) (h : m.last_sync = none) :
    m ∉ (filter_status filters now status).urls := by
  intro hmem
  have hkeep := (List.mem_filter.mp hmem).2
  rw [keepMirror, h] at hkeep
  exact Bool.false_ne_true hkeep

theorem unsynced_mirror_always_rejected_witness :
    (mkMirror "https://a.example/").last_sync = none
    ∧ mkMirror "https://a.example/" ∉ (filter_status emptyFilters 0 exampleStatus).urls :=
  ⟨rfl, unsynced_mirror_always_rejected emptyFilters 0 exampleStatus (mkMirror "https://a.example/") rfl⟩

/-- C9: filtering twice with the same configuration and evaluation time is
the same as filtering once, and the survivors form a sublist of the
unfiltered mirror collection (same relative order). -/
theorem filter_status_idempotent_and_order_preserving
    (filters : Filters) (now : ℤ) (status : Status) :
    filter_status filters now (filter_status filters now status)
        = filter_status filters now status
    ∧ (filter_status filters now status).urls.Sublist status.urls := by
  constructor
  · show Status.mk _ _ _ _ _ _ = Status.mk _ _ _ _ _ _
    have : (status.urls.filter (keepMirror filters now)).filter (keepMirror filters now)
        = status.urls.filter (keepMirror filters now) :=
      List.filter_eq_self.mpr (fun a ha => List.of_mem_filter ha)
    simp only [filter_status, this]
  · exact List.filter_sublist _

/-! ### Sorting (`sort_status`, main.rs:337–364)

Rust's `Vec::sort_by`/`sort_by_key` are stable; sorting by a total
preorder comparator `c` they produce the unique stable result, which is
`List.insertionSort` over `fun a b => c a b ≠ .gt`. -/

/-- Three-way comparison of a linear order: `f64::partial_cmp` on the
finite values of the rational float model, and `Ord::cmp` on integers. -/
def lcmp {α : Type} [LinearOrder α] (x y : α) : Ordering :=
  if x < y then .lt else if y < x then .gt else .eq

/-- The derived comparison of Rust `Option` values (`None` orders first),
lifted over an element comparison. -/
def optCmp {α : Type} (cmp : α → α → Ordering) (x y : Option α) : Ordering :=
  match x, y with
  | some u, some v => cmp u v
  | some _, none => .gt
  | none, some _ => .lt
  | none, none => .eq

/-- The comparator of the `SortTypes::Score` arm of `sort_status`
(main.rs:355–360): `a.score.partial_cmp(&b.score).unwrap_or(Equal).reverse()`.
On the rational model `partial_cmp` is total (`unwrap_or` only fires for
IEEE NaN) and follows `Option`'s derived order with `None` first;
`Ordering::reverse` is `Ordering.swap`. -/
def scoreCmp (a b : Mirror) : Ordering := (optCmp lcmp a.score b.score).swap

/-- `sort_by` keeps `a` no later than `b` when the comparator does not
answer `Greater`. -/
def scoreLe (a b : Mirror) : Prop := scoreCmp a b ≠ .gt

instance : DecidableRel scoreLe := fun a b => by unfold scoreLe; infer_instance

/-- The `SortTypes::Score` arm of `sort_status`, as the stable sort by
`scoreCmp`. -/
def sortByScore (l : List Mirror) : List Mirror := l.insertionSort scoreLe

/-- The sort key of the `SortTypes::Delay` arm (main.rs:361):
`sort_by_key(|mir| Reverse(mir.delay))` sorts ascending by
`Reverse(Option<u32>)`, i.e. by the comparator that swaps the derived
`Option<u32>` comparison. -/
def delayCmp (a b : Mirror) : Ordering := (optCmp lcmp a.delay b.delay).swap

def delayLe (a b : Mirror) : Prop := delayCmp a b ≠ .gt

instance : DecidableRel delayLe := fun a b => by unfold delayLe; infer_instance

/-- The `SortTypes::Delay` arm of `sort_status`. -/
def sortByDelay (l : List Mirror) : List Mirror := l.insertionSort delayLe

/-- The comparator of the `SortTypes::Rate` arm (main.rs:344–352), over the
rate measurement produced by `rate_status` (a `HashMap<Url, f64>` modelled
as a function; the measured rates are modelled as finite, as specified for
`RateMeasurement`): both present compare by rate reversed, a mirror
present in the map sorts before an absent one, two absent mirrors tie. -/
def rateCmp (rates : String → Option ℚ) (a b : Mirror) : Ordering :=
  match rates a.url, rates b.url with
  | some rate_a, some rate_b => (lcmp rate_a rate_b).swap
  | some _, none => .lt
  | none, some _ => .gt
  | none, none => .eq

def rateLe (rates : String → Option ℚ) (a b : Mirror) : Prop := rateCmp rates a b ≠ .gt

instance (rates : String → Option ℚ) : DecidableRel (rateLe rates) :=
  fun a b => by unfold rateLe; infer_instance

/-- The `SortTypes::Rate` arm of `sort_status`. -/
def sortByRate (rates : String → Option ℚ) (l : List Mirror) : List Mirror :=
  l.insertionSort (rateLe rates)

/-- The reading of all three comparators: `x` may stay no later than `y`
iff `y ≤ x` in the `None`-least order on `Option`. -/
def optGe {α : Type} [LinearOrder α] : Option α → Option α → Prop
  | _, none => True
  | none, some _ => False
  | some x, some y => y ≤ x

lemma swap_ne_gt {o : Ordering} : o.swap ≠ .gt ↔ o ≠ .lt := by
  cases o <;> simp [Ordering.swap]

lemma lcmp_ne_lt {α : Type} [LinearOrder α] {x y : α} : lcmp x y ≠ .lt ↔ y ≤ x := by
  unfold lcmp
  split_ifs with h1 h2
  · simp [not_le.mpr h1]
  · simp [le_of_lt h2]
  · simp [le_of_not_lt h1]

lemma optGe_none_right {α : Type} [LinearOrder α] (a : Option α) : optGe a none := by
  cases a <;> trivial

lemma optGe_trans {α : Type} [LinearOrder α] {a b c : Option α}
    (h1 : optGe a b) (h2 : optGe b c) : optGe a c := by
  cases a <;> cases b <;> cases c <;> simp_all [optGe]
  exact h2.trans h1

lemma optGe_total {α : Type} [LinearOrder α] (a b : Option α) : optGe a b ∨ optGe b a := by
  cases a <;> cases b <;> simp [optGe]
  exact le_total _ _

lemma scoreLe_iff (a b : Mirror) : scoreLe a b ↔ optGe a.score b.score := by
  unfold scoreLe scoreCmp
  rw [swap_ne_gt]
  cases a.score <;> cases b.score <;> simp [optCmp, optGe, lcmp_ne_lt]

lemma delayLe_iff (a b : Mirror) : delayLe a b ↔ optGe a.delay b.delay := by
  unfold delayLe delayCmp
  rw [swap_ne_gt]
  cases a.delay <;> cases b.delay <;> simp [optCmp, optGe, lcmp_ne_lt]

lemma rateLe_iff (rates : String → Option ℚ) (a b : Mirror) :
    rateLe rates a b ↔ optGe (rates a.url) (rates b.url) := by
  unfold rateLe rateCmp
  cases rates a.url <;> cases rates b.url <;>
    simp [optGe, swap_ne_gt, lcmp_ne_lt]

/-- Mirrors with score `1` and `2` (lower score is documented as better). -/
def mirrorScoreOne : Mirror := { mkMirror "https://one.example/" with score := some 1 }

def mirrorScoreTwo : Mirror := { mkMirror "https://two.example/" with score := some 2 }

/-- C1 counterexample: sorting by score puts score `2` before score `1`,
so present scores are not in ascending order. -/
theorem score_sort_not_ascending_at_two_mirrors :
    (sortByScore [mirrorScoreOne, mirrorScoreTwo]).map Mirror.score = [some 2, some 1]
    ∧ ¬ ((2 : ℚ) ≤ (1 : ℚ)) := by
  constructor
  · decide
  · decide

/-- C1 (amended): sorting by score orders mirrors with a present score in
descending order of score value, and every mirror with an absent score is
placed after every mirror with a present score. -/
theorem score_sort_descending_absent_last (l : List Mirror) :
    (sortByScore l).Pairwise fun a b =>
      (a.score = none → b.score = none)
      ∧ ∀ sa sb, a.score = some sa → b.score = some sb → sb ≤ sa := by
  have hs : (sortByScore l).Pairwise scoreLe := by
    haveI : IsTrans Mirror scoreLe :=
      ⟨fun a b c h1 h2 => (scoreLe_iff a c).mpr
        (optGe_trans ((scoreLe_iff a b).mp h1) ((scoreLe_iff b c).mp h2))⟩
    haveI : IsTotal Mirror scoreLe :=
      ⟨fun a b => (optGe_total a.score b.score).imp
        ((scoreLe_iff a b).mpr ·) ((scoreLe_iff b a).mpr ·)⟩
    exact List.sorted_insertionSort scoreLe l
  refine hs.imp fun {a b} hab => ?_
  rw [scoreLe_iff] at hab
  constructor
  · intro ha
    cases hb : b.score with
    | none => rfl
    | some sb => rw [ha, hb] at hab; exact hab.elim
  · intro sa sb hsa hsb
    rw [hsa, hsb] at hab
    exact hab

/-- Mirrors reporting 10-second and 20-second sync delays. -/
def mirrorDelayTen : Mirror := { mkMirror "https://ten.example/" with delay := some 10 }

def mirrorDelayTwenty : Mirror := { mkMirror "https://twenty.example/" with delay := some 20 }

/-- C2 at the failing input: `sort_by_key(|mir| Reverse(mir.delay))` places
the mirror with the larger 20-second delay before the 10-second one, while
the spec requires the smallest delay to rank best. -/
theorem delay_sort_puts_larger_delay_first :
    (sortByDelay [mirrorDelayTen, mirrorDelayTwenty]).map Mirror.delay
      = [some 20, some 10]
    ∧ (10 : ℕ) < 20 := by
  constructor
  · decide
  · decide

/-- C6: sorting by rate places every measured mirror before every
unmeasured one, orders measured mirrors by non-increasing rate, and keeps
the unmeasured mirrors in their original relative order. -/
theorem rate_sort_measured_first_descending_stable
    (rates : String → Option ℚ) (l : List Mirror) :
    ((sortByRate rates l).Pairwise fun a b =>
        ((rates b.url).isSome → (rates a.url).isSome)
        ∧ ∀ ra rb, rates a.url = some ra → rates b.url = some rb → rb ≤ ra)
    ∧ (sortByRate rates l).filter (fun m => (rates m.url).isNone)
        = l.filter (fun m => (rates m.url).isNone) := by
  constructor
  · have hs : (sortByRate rates l).Pairwise (rateLe rates) := by
      haveI : IsTrans Mirror (rateLe rates) :=
        ⟨fun a b c h1 h2 => (rateLe_iff rates a c).mpr
          (optGe_trans ((rateLe_iff rates a b).mp h1) ((rateLe_iff rates b c).mp h2))⟩
      haveI : IsTotal Mirror (rateLe rates) :=
        ⟨fun a b => (optGe_total (rates a.url) (rates b.url)).imp
          ((rateLe_iff rates a b).mpr ·) ((rateLe_iff rates b a).mpr ·)⟩
      exact List.sorted_insertionSort (rateLe rates) l
    refine hs.imp fun {a b} hab => ?_
    rw [rateLe_iff] at hab
    constructor
    · intro hb
      rcases hra : rates a.url with _ | ra
      · rcases hrb : rates b.url with _ | rb
        · rw [hrb] at hb; simp at hb
        · rw [hra, hrb] at hab; exact hab.elim
      · simp [hra]
    · intro ra rb hra hrb
      rw [hra, hrb] at hab
      exact hab
  · have hpair : (l.filter (fun m => (rates m.url).isNone)).Pairwise (rateLe rates) := by
      refine List.pairwise_of_forall_mem_list fun a _ b hb => ?_
      have hbnone : rates b.url = none :=
        Option.isNone_iff_eq_none.mp (List.mem_filter.mp hb).2
      exact (rateLe_iff rates a b).mpr (hbnone ▸ optGe_none_right _)
    have hsub : (l.filter (fun m => (rates m.url).isNone)).Sublist (sortByRate rates l) :=
      List.sublist_insertionSort hpair (List.filter_sublist l)
    have hself : (l.filter (fun m => (rates m.url).isNone)).filter
        (fun m => (rates m.url).isNone) = l.filter (fun m => (rates m.url).isNone) :=
      List.filter_eq_self.mpr fun a ha => (List.mem_filter.mp ha).2
    have hsub2 : (l.filter (fun m => (rates m.url).isNone)).Sublist
        ((sortByRate rates l).filter (fun m => (rates m.url).isNone)) := by
      have := hsub.filter (fun m => (rates m.url).isNone)
      rwa [hself] at this
    have hlen : ((sortByRate rates l).filter (fun m => (rates m.url).isNone)).length
        = (l.filter (fun m => (rates m.url).isNone)).length :=
      ((List.perm_insertionSort (rateLe rates) l).filter _).length_eq
    exact (hsub2.eq_of_length hlen.symm).symm

/-! ### The cache-or-fetch gate (`get_mirror_status`, main.rs:215–245 and
mirrors.rs:24–49)

The cache file is modelled by its readable modification time (`none` when
the file is missing or its metadata/modification time cannot be read,
matching `metadata().ok().and_then(|meta| meta.modified().ok())`) and the
snapshot its bytes deserialize to.  The network is modelled by the
snapshot a fetch would return; serialization (pretty-printed JSON) is
abstracted, so the written cache content is recorded as the snapshot
itself. -/

structure CacheFile where
  mtime : Option ℤ
  contents : Status
deriving DecidableEq

/-- What one call of `get_mirror_status` did: the snapshot it returned,
whether it hit the network, and what it wrote over the cache file. -/
structure FetchResult where
  returned : Status
  fetched : Bool
  written : Option Status
deriving DecidableEq

/-- The `is_invalid` staleness check of main.rs:226–232: a missing
modification time is stale, `now.duration_since(time)` fails (`Err`) when
`time` is in the future of `now` and is then treated as stale, and
otherwise the cache is stale when the elapsed whole seconds exceed the
timeout. -/
def isInvalidCheck (cache_timeout : ℕ) (now : ℤ) (mtime : Option ℤ) : Bool :=
  match mtime with
  | none => true
  | some time =>
    if time ≤ now then decide ((now - time).toNat > cache_timeout) else true

/-- `get_mirror_status` (main.rs:215–245) for a resolved cache path: serve
the cache file when the check says it is valid, otherwise fetch from the
network, overwrite the cache file with the fetched snapshot and return
it.  Without a cache path (`None`) it always fetches and writes nothing. -/
def get_mirror_status (cache_timeout : ℕ) (now : ℤ) (cache : Option CacheFile)
    (network : Status) : FetchResult :=
  match cache with
  | some cache_file =>
    if isInvalidCheck cache_timeout now cache_file.mtime then
      { returned := network, fetched := true, written := some network }
    else
      { returned := cache_file.contents, fetched := false, written := none }
  | none => { returned := network, fetched := true, written := none }

/-- Follows the spec's words for C4: the cache file exists (has a readable
modification time) and that time is within `cacheTTLSeconds` of now. -/
def freshPerSpec (cache_timeout : ℕ) (now : ℤ) (cache_file : CacheFile) : Bool :=
  match cache_file.mtime with
  | some time => decide (time ≤ now) && decide ((now - time).toNat ≤ cache_timeout)
  | none => false

/-- C4: whenever the cache file's modification time is within the TTL of
now, the cached snapshot is returned with no network fetch and no write;
in every other cache-file state the network snapshot is fetched, written
over the cache file, and returned.  (At `now = 600`, `mtime = 0`,
`TTL = 300` — the worked 10-minutes-versus-5-minutes scenario — the
condition is false, so a fetch and overwrite occur.) -/
theorem cache_within_ttl_served_else_refetched
    (cache_timeout : ℕ) (now : ℤ) (cache_file : CacheFile) (network : Status) :
    get_mirror_status cache_timeout now (some cache_file) network =
      if freshPerSpec cache_timeout now cache_file then
        { returned := cache_file.contents, fetched := false, written := none }
      else
        { returned := network, fetched := true, written := some network } := by
  unfold get_mirror_status freshPerSpec isInvalidCheck
  obtain ⟨mtime, contents⟩ := cache_file
  rcases mtime with _ | time
  · simp
  · by_cases hle : time ≤ now
    · by_cases hct : (now - time).toNat ≤ cache_timeout
      · have h1 : ¬ ((cache_timeout : ℤ) < now - time) := by omega
        simp [hle, hct, h1]
      · have h1 : (cache_timeout : ℤ) < now - time := by omega
        simp [hle, hct, h1]
    · simp [hle]

/-- The staleness check of the `mirrors.rs` variant of `get_mirror_status`
(mirrors.rs:31–39).  It differs from main.rs in the `duration_since`
failure case: `now.duration_since(time).expect("Time went backwards")`
panics when the modification time lies in the future, modelled as `none`. -/
def isInvalidCheckMirrorsRs (cache_timeout : ℕ) (now : ℤ) (mtime : Option ℤ) :
    Option Bool :=
  match mtime with
  | none => some true
  | some time =>
    if time ≤ now then some (decide ((now - time).toNat > cache_timeout)) else none

/-- C7 counterexample: with the wall clock at `0` and a cache-file
modification time of `1` (one second in the future), the `mirrors.rs`
freshness check panics (`expect("Time went backwards")`, modelled `none`)
instead of treating the failure as stale. -/
theorem mirrors_rs_freshness_check_panics_on_future_mtime :
    isInvalidCheckMirrorsRs 300 0 (some 1) = none := by decide

/-- C7 (amended): in the main.rs `get_mirror_status`, every failure to
obtain the modification time (`none`) and every future modification time
is treated as stale and forces a refetch, never an error; the claim fails
only for the `mirrors.rs` variant, which panics on a future modification
time. -/
theorem freshness_failures_treated_as_stale
    (cache_timeout : ℕ) (now : ℤ) (k : ℕ) (cached network : Status) :
    isInvalidCheck cache_timeout now none = true
    ∧ isInvalidCheck cache_timeout now (some (now + 1 + k)) = true
    ∧ get_mirror_status cache_timeout now (some ⟨none, cached⟩) network
        = { returned := network, fetched := true, written := some network }
    ∧ get_mirror_status cache_timeout now (some ⟨some (now + 1 + k), cached⟩) network
        = { returned := network, fetched := true, written := some network } := by
  have hfut : ¬ (now + 1 + (k : ℤ) ≤ now) := by omega
  refine ⟨rfl, ?_, rfl, ?_⟩
  · simp [isInvalidCheck, hfut]
  · simp [get_mirror_status, isInvalidCheck, hfut]

/-! ### Rate benchmarking (`rate_status`, main.rs:366–442)

A probe task either fails (any error: network, join, non-zero rsync exit,
filesystem — all are only logged by the collection loop) or succeeds with
the probe object's byte length and the elapsed wall-clock seconds, from
which the task computes `rate = content_length as f64 / micros` and
returns `Ok((url, rate))`.  The division's IEEE result is modelled by
`FVal`; the `HashMap<Url, f64>` by a function. -/

/-- The value of an `f64` produced by the rate division. -/
inductive FVal
  | finite (q : ℚ)
  | inf
  | nan
deriving DecidableEq

/-- `(content_length as f64) / micros` (main.rs:392 and 424) for the
nonnegative operands that occur there (`micros` is an `Instant` elapsed
time, never negative): a positive length over zero elapsed time is `+∞`,
zero over zero is NaN, and otherwise the quotient is finite (rounding
abstracted into `ℚ`). -/
def fdivRate (content_length : ℕ) (micros : ℚ) : FVal :=
  if 0 < micros then .finite ((content_length : ℚ) / micros)
  else if content_length = 0 then .nan
  else .inf

/-- Strictly positive and finite, the property C3 asserts of every
recorded rate. -/
def FVal.isPosFinite : FVal → Bool
  | .finite q => decide (0 < q)
  | _ => false

/-- What one spawned probe task produced, as observed by the
`join_next` collection loop. -/
inductive ProbeOutcome
  | ok (url : String) (content_length : ℕ) (micros : ℚ)
  | failed

/-- The collection loop of `rate_status` (main.rs:431–441): every task
that completed with `Ok((url, rate))` has its rate inserted into the map
unconditionally; failures are only logged. -/
def rate_status (results : List ProbeOutcome) : String → Option FVal :=
  results.foldl
    (fun rates r =>
      match r with
      | .ok url content_length micros =>
        fun u => if u = url then some (fdivRate content_length micros) else rates u
      | .failed => rates)
    (fun _ => none)

/-- C3 counterexample: a successful probe of a 100-byte object with zero
elapsed time is recorded in the rate map with rate `+∞`, which is not a
strictly positive finite number — it is not excluded. -/
theorem zero_elapsed_probe_recorded_as_infinite_rate :
    rate_status [ProbeOutcome.ok "https://m.example/" 100 0] "https://m.example/"
      = some FVal.inf
    ∧ FVal.inf.isPosFinite = false := by
  constructor
  · decide
  · decide

lemma rate_status_foldl_isSome (results : List ProbeOutcome)
    (init : String → Option FVal) (u : String) :
    ((results.foldl
        (fun rates r =>
          match r with
          | .ok url content_length micros =>
            fun v => if v = url then some (fdivRate content_length micros) else rates v
          | .failed => rates)
        init) u).isSome
      ↔ (init u).isSome ∨ ∃ len el, ProbeOutcome.ok u len el ∈ results := by
  induction results generalizing init with
  | nil => simp
  | cons r rs ih =>
    cases r with
    | ok url len0 el0 =>
      rw [List.foldl_cons, ih]
      by_cases hu : u = url
      · subst hu
        constructor
        · intro _
          exact Or.inr ⟨len0, el0, List.mem_cons_self _ _⟩
        · intro _
          refine Or.inl ?_
          simp
      · simp only [if_neg hu, List.mem_cons, ProbeOutcome.ok.injEq]
        constructor
        · rintro (h | h)
          · exact Or.inl h
          · obtain ⟨len, el, hm⟩ := h
            exact Or.inr ⟨len, el, Or.inr hm⟩
        · rintro (h | ⟨len, el, h | hm⟩)
          · exact Or.inl h
          · exact absurd h.1 hu
          · exact Or.inr ⟨len, el, hm⟩
    | failed =>
      rw [List.foldl_cons, ih]
      simp only [List.mem_cons]
      constructor
      · rintro (h | ⟨len, el, hm⟩)
        · exact Or.inl h
        · exact Or.inr ⟨len, el, Or.inr hm⟩
      · rintro (h | ⟨len, el, h | hm⟩)
        · exact Or.inl h
        · cases h
        · exact Or.inr ⟨len, el, hm⟩

/-- C3 (amended): the rate map contains exactly the mirrors whose probe
succeeded, but each recorded value is just the probe's division result —
a zero-elapsed success is recorded with its infinite (or NaN) rate rather
than excluded. -/
theorem rate_map_is_exactly_successful_probes
    (results : List ProbeOutcome) (u : String) (content_length : ℕ) (micros : ℚ) :
    ((rate_status results u).isSome ↔ ∃ len el, ProbeOutcome.ok u len el ∈ results)
    ∧ rate_status (results ++ [ProbeOutcome.ok u content_length micros]) u
        = some (fdivRate content_length micros) := by
  constructor
  · rw [rate_status, rate_status_foldl_isSome]
    simp
  · rw [rate_status, List.foldl_append]
    simp

/-! ### The concurrency limiter (`rate_status`, main.rs:375–377, 386–398)

`Semaphore::new(run_options.threads.max(1))` creates the counting
limiter; every probe task acquires one permit before probing and the
`_guard` releases it when the task ends, success or failure.  The
acquire/release discipline is modelled as a transition system over the
count of available permits and of running (mid-flight) probes. -/

/-- The permit count of the semaphore: `run_options.threads.max(1)`
(main.rs:377). -/
def semaphorePermits (threads : ℕ) : ℕ := max threads 1

structure SemState where
  available : ℕ
  running : ℕ
deriving DecidableEq

def semInit (permits : ℕ) : SemState := { available := permits, running := 0 }

/-- One scheduler event: a probe acquires a permit (possible only when one
is available) or a finished probe's guard releases its permit. -/
inductive SemStep : SemState → SemState → Prop
  | acquire (a r : ℕ) : SemStep ⟨a + 1, r⟩ ⟨a, r + 1⟩
  | release (a r : ℕ) : SemStep ⟨a, r + 1⟩ ⟨a + 1, r⟩

/-- States the benchmarking pass can reach from the freshly created
semaphore. -/
inductive SemReachable (init : SemState) : SemState → Prop
  | refl : SemReachable init init
  | step {s t : SemState} : SemReachable init s → SemStep s t → SemReachable init t

lemma semReachable_sum {permits : ℕ} {s : SemState}
    (h : SemReachable (semInit permits) s) : s.available + s.running = permits := by
  induction h with
  | refl => rfl
  | step _ hs ih => cases hs <;> simp_all <;> omega

/-- Two probes mid-flight at once, in some reachable state. -/
def twoProbesInFlight (permits : ℕ) : Prop :=
  ∃ a, SemReachable (semInit permits) ⟨a, 2⟩

/-- C8 counterexample: a caller-requested limit of zero initializes the
semaphore with a single permit — a small fixed bound that serializes the
probes (no reachable state has two probes mid-flight), not an effectively
unlimited permit count. -/
theorem zero_limit_means_single_permit :
    semaphorePermits 0 = 1 ∧ ¬ twoProbesInFlight (semaphorePermits 0) := by
  refine ⟨rfl, ?_⟩
  rintro ⟨a, h⟩
  have := semReachable_sum h
  simp [semaphorePermits] at this

/-- C8 (amended): at most `max(concurrencyLimit, 1)` probe tasks hold a
permit (are mid-flight) in any reachable state of the benchmarking pass; a
zero limit is clamped to one permit, fully serializing the probes. -/
theorem probes_bounded_by_clamped_limit (threads : ℕ) (s : SemState)
    (h : SemReachable (semInit (semaphorePermits threads)) s) :
    s.running ≤ max threads 1 := by
  have := semReachable_sum h
  have hp : semaphorePermits threads = max threads 1 := rfl
  omega

theorem probes_bounded_by_clamped_limit_witness :
    SemState.running ⟨0, 1⟩ ≤ max 0 1 :=
  probes_bounded_by_clamped_limit 0 ⟨0, 1⟩
    (SemReachable.step SemReachable.refl (SemStep.acquire 0 0))

/-! ### C10: truncation of the fractional age threshold -/

/-- C10: `age as i64` truncates the hour threshold toward zero before the
span is built, so every threshold strictly between 0 and 1 hour yields a
zero-hour span whose `compare(Span::new())` guard never fires — the age
predicate imposes no constraint at all — while a threshold of 1.9 hours
acts exactly like 1 hour: among mirrors with a last-sync time it rejects
exactly those older than one hour (`t + 3600 < now`). -/
theorem age_threshold_truncated_toward_zero (a₁ a₂ : ℚ)
    (h0 : 0 < a₁) (h1 : a₁ < 1) (h2 : 1 ≤ a₂) (h3 : a₂ < 2)
    (filters : Filters) (now : ℤ) (m : Mirror) :
    keepMirror { filters with age := some a₁ } now m
      = keepMirror { filters with age := none } now m
    ∧ ∀ t, m.last_sync = some t →
        keepMirror { filters with age := some a₂ } now m
          = (!decide (t + 3600 < now)
              && keepMirror { filters with age := none } now m) := by
  have htr1 : ratTrunc a₁ = 0 := by
    have hnum : 0 < a₁.num := Rat.num_pos.mpr h0
    have hden : a₁.num < (a₁.den : ℤ) := Rat.lt_one_iff_num_lt_denom.mp h1
    exact Int.tdiv_eq_zero_of_lt (le_of_lt hnum) hden
  have htr2 : ratTrunc a₂ = 1 := by
    have hden : (0 : ℤ) < (a₂.den : ℤ) := by exact_mod_cast a₂.den_pos
    have h2' : (a₂.den : ℤ) ≤ a₂.num := by
      rw [Rat.le_def] at h2
      simpa using h2
    have h3' : a₂.num < 2 * (a₂.den : ℤ) := by
      rw [Rat.lt_def] at h3
      simpa using h3
    have hge : 1 ≤ a₂.num / (a₂.den : ℤ) := by
      rw [Int.le_ediv_iff_mul_le hden]
      omega
    have hlt : a₂.num / (a₂.den : ℤ) < 2 := by
      rw [Int.ediv_lt_iff_lt_mul hden]
      omega
    rw [ratTrunc, Int.tdiv_eq_ediv (by omega) (by omega)]
    omega
  have hmax1 : maxAge { filters with age := some a₁ } = some 0 := by
    simp [maxAge, htr1, tryHours]
  have hmax0 : maxAge { filters with age := none } = none := by
    simp [maxAge]
  have hmax2 : maxAge { filters with age := some a₂ } = some 1 := by
    simp [maxAge, htr2, tryHours]
  constructor
  · cases hls : m.last_sync with
    | none => simp [keepMirror, hls]
    | some t =>
      have hz : decide ((0 : ℤ) < 0) = false := by decide
      simp [keepMirror, hls, hmax1, hmax0, hz, minCompletionPct]
  · intro t hls
    have ho : decide ((0 : ℤ) < 1) = true := by decide
    simp [keepMirror, hls, hmax2, hmax0, ho, minCompletionPct, Bool.and_assoc]

theorem age_threshold_truncated_toward_zero_witness :
    (0 < (1/2 : ℚ) ∧ (1/2 : ℚ) < 1 ∧ 1 ≤ (19/10 : ℚ) ∧ (19/10 : ℚ) < 2)
    ∧ keepMirror { emptyFilters with age := some (1/2 : ℚ) } 0
          (mkMirror "https://a.example/")
        = keepMirror { emptyFilters with age := none } 0 (mkMirror "https://a.example/") :=
  ⟨⟨by norm_num, by norm_num, by norm_num, by norm_num⟩,
    (age_threshold_truncated_toward_zero (1/2) (19/10) (by norm_num) (by norm_num)
      (by norm_num) (by norm_num) emptyFilters 0 (mkMirror "https://a.example/")).1⟩

end Reflector
